import Mathlib

/-!
Shallow embedding of the concurrent resource-management core of the
`rust-study` repository:

* the task scheduler and task queue (`src/august-code/src/core/scheduler.rs`),
* the TTL cache and the sliding-window rate limiter
  (`src/august-code/src/core/web_server.rs`),
* the database connection pools (`src/august-code/src/async_db.rs`).

Stateful Rust methods become explicit state-passing functions; `u64`/`usize`
become `Nat`; `Instant`/`Duration` become `Nat` time points and durations
(seconds); `Result` becomes `Except`; `Vec<T>` becomes `List T` in the same
order (so `Vec::push` appends at the end and `Vec::pop` takes the last
element); `HashMap<K, V>` becomes a key-unique association list.
-/

namespace RustStudy

/-! ### `core/scheduler.rs`: task model -/

/-- Rust `TaskPriority` from `scheduler.rs` (`Low = 1`, `Normal = 2`, `High = 3`,
`Critical = 4`; the derived `Ord` compares these discriminants). -/
inductive TaskPriority where
  | Low
  | Normal
  | High
  | Critical
deriving DecidableEq

/-- The numeric discriminant of a `TaskPriority`, which is what the derived
Rust `Ord` instance compares. -/
def TaskPriority.val : TaskPriority → Nat
  | .Low => 1
  | .Normal => 2
  | .High => 3
  | .Critical => 4

/-- Rust `TaskStatus` from `scheduler.rs`. -/
inductive TaskStatus where
  | Pending
  | Running
  | Completed
  | Failed
  | Cancelled
deriving DecidableEq

/-- Rust `TaskInfo` from `scheduler.rs`; `Instant`s are modelled as `Nat`. -/
structure TaskInfo where
  id : String
  name : String
  priority : TaskPriority
  status : TaskStatus
  created_at : Nat
  started_at : Option Nat
  completed_at : Option Nat
deriving DecidableEq

/-- Error kind raised by `enqueue` via `anyhow::anyhow!("任务队列已满")`. -/
inductive SchedError where
  | queueFull
deriving DecidableEq

-- Decidable equality of `Result` values, so that the embedded operations can
-- be evaluated on concrete inputs.
deriving instance DecidableEq for Except

/-! ### `core/scheduler.rs`: `TaskQueue` -/

/-- Rust `TaskQueue` from `scheduler.rs`: the `Vec<TaskInfo>` behind the lock plus
the optional capacity. -/
structure TaskQueue where
  queue : List TaskInfo
  max_size : Option Nat
deriving DecidableEq

/-- Rust `TaskQueue::new()`. -/
def TaskQueue.new : TaskQueue := { queue := [], max_size := none }

/-- Rust `TaskQueue::with_max_size(max_size)`. -/
def TaskQueue.with_max_size (max_size : Nat) : TaskQueue :=
  { queue := [], max_size := some max_size }

/-- Rust `TaskQueue::enqueue`: fails when `queue.len() >= max_size`, otherwise
`Vec::push`es the task at the end. -/
def TaskQueue.enqueue (q : TaskQueue) (task : TaskInfo) : Except SchedError TaskQueue :=
  match q.max_size with
  | some max_size =>
    if max_size ≤ q.queue.length then Except.error SchedError.queueFull
    else Except.ok { q with queue := q.queue ++ [task] }
  | none => Except.ok { q with queue := q.queue ++ [task] }

/-- Rust `TaskQueue::dequeue`: `Vec::pop`, i.e. it removes and returns the last
element of the buffer. -/
def TaskQueue.dequeue (q : TaskQueue) : Option TaskInfo × TaskQueue :=
  (q.queue.getLast?, { q with queue := q.queue.dropLast })

/-- One insertion step of a stable insertion sort: `x` is placed before the
first element `y` with `le x y` and after every earlier element. -/
def sortInsert (le : TaskInfo → TaskInfo → Bool) (x : TaskInfo) :
    List TaskInfo → List TaskInfo
  | [] => [x]
  | y :: ys => if le x y then x :: y :: ys else y :: sortInsert le x ys

/-- The comparison `sort_by(|a, b| b.priority.cmp(&a.priority))` uses: `a` may
stay before `b` exactly when `b.priority <= a.priority` (descending order,
stable on ties). -/
def priorityGe (a b : TaskInfo) : Bool :=
  b.priority.val ≤ a.priority.val

/-- Rust `queue.sort_by(|a, b| b.priority.cmp(&a.priority))`: a stable sort into
descending priority order (Rust's `sort_by` is stable; a stable sort under a
total comparison is extensionally unique, so stable insertion sort embeds it). -/
def sortByPriorityDesc (l : List TaskInfo) : List TaskInfo :=
  l.foldr (sortInsert priorityGe) []

/-- Rust `TaskQueue::dequeue_by_priority`: returns `None` on the empty queue,
otherwise sorts the buffer into descending priority order (stably) and then
`Vec::pop`s, i.e. removes and returns the LAST element of the sorted buffer. -/
def TaskQueue.dequeue_by_priority (q : TaskQueue) : Option TaskInfo × TaskQueue :=
  if q.queue.isEmpty then (none, q)
  else
    let sorted := sortByPriorityDesc q.queue
    (sorted.getLast?, { q with queue := sorted.dropLast })

/-- Rust `TaskQueue::size`. -/
def TaskQueue.size (q : TaskQueue) : Nat := q.queue.length

/-! ### `core/scheduler.rs`: `AsyncTaskScheduler` id generation -/

/-- Rust `AsyncTaskScheduler` state relevant to registration: the task list and the
`task_counter` behind their locks. -/
structure AsyncTaskScheduler where
  tasks : List TaskInfo
  task_counter : Nat
deriving DecidableEq

/-- Rust `AsyncTaskScheduler::new()`. -/
def AsyncTaskScheduler.new : AsyncTaskScheduler := { tasks := [], task_counter := 0 }

/-- Rust `AsyncTaskScheduler::generate_task_id`: increments the counter and returns
`format!("task_{}", counter)` together with the new counter value. -/
def generate_task_id (counter : Nat) : String × Nat :=
  let c := counter + 1
  ("task_" ++ Nat.repr c, c)

/-- A registration request: `add_periodic_task` and `add_one_time_task` differ
only in the spawned body, not in id generation or record creation. -/
structure TaskRequest where
  name : String
  priority : TaskPriority
  periodic : Bool

/-- The registration step shared by `add_periodic_task` and
`add_one_time_task`: generate an id, push a `Pending` record, return the id. -/
def AsyncTaskScheduler.register (s : AsyncTaskScheduler) (r : TaskRequest)
    (now : Nat) : String × AsyncTaskScheduler :=
  let idc := generate_task_id s.task_counter
  let info : TaskInfo :=
    { id := idc.1, name := r.name, priority := r.priority,
      status := TaskStatus.Pending, created_at := now,
      started_at := none, completed_at := none }
  (idc.1, { tasks := s.tasks ++ [info], task_counter := idc.2 })

/-- Run a sequence of registrations, collecting the returned task ids. -/
def AsyncTaskScheduler.registerAll (s : AsyncTaskScheduler) :
    List (TaskRequest × Nat) → List String × AsyncTaskScheduler
  | [] => ([], s)
  | (r, now) :: rest =>
    let step := s.register r now
    let rec_ := step.2.registerAll rest
    (step.1 :: rec_.1, rec_.2)

/-- Observer: the `task_counter` value recorded by each successive
registration (the "underlying counter value" of each issued id). -/
def AsyncTaskScheduler.counterTrace (s : AsyncTaskScheduler) :
    List (TaskRequest × Nat) → List Nat
  | [] => []
  | (r, now) :: rest =>
    let step := s.register r now
    step.2.task_counter :: step.2.counterTrace rest

/-! ### `core/web_server.rs`: TTL cache -/

/-- Rust `CacheEntry` from `web_server.rs` (`timestamp` and `ttl` are `u64`
seconds). -/
structure CacheEntry where
  data : String
  timestamp : Nat
  ttl : Nat
deriving DecidableEq

/-- The `HashMap<String, CacheEntry>` behind the cache lock, as a key-unique
association list. -/
abbrev Cache := List (String × CacheEntry)

/-- Rust `AsyncWebServer::get_from_cache`, in state-passing form: looks the url up
and returns the data only when `now - entry.timestamp < entry.ttl`; every
return path leaves the map untouched (the method only takes the read lock). -/
def get_from_cache (cache : Cache) (url : String) (now : Nat) :
    Option String × Cache :=
  match cache.lookup url with
  | some entry =>
    if now - entry.timestamp < entry.ttl then (some entry.data, cache)
    else (none, cache)
  | none => (none, cache)

/-- Rust `AsyncWebServer::store_in_cache`: `HashMap::insert`, unconditionally
(over)writing the binding for `url` with a fresh `timestamp = now`. -/
def store_in_cache (cache : Cache) (url : String) (data : String) (ttl : Nat)
    (now : Nat) : Cache :=
  (url, { data := data, timestamp := now, ttl := ttl }) ::
    cache.filter (fun p => p.1 != url)

/-- Rust `AsyncWebServer::cleanup_cache`: `retain`s exactly the entries with
`now - entry.timestamp < entry.ttl`. -/
def cleanup_cache (cache : Cache) (now : Nat) : Cache :=
  cache.filter (fun p => now - p.2.timestamp < p.2.ttl)

/-- Rust `AsyncWebServer::cache_stats`: `(total_entries, valid_entries)` where an
entry counts as valid iff `now - entry.timestamp < entry.ttl`. -/
def cache_stats (cache : Cache) (now : Nat) : Nat × Nat :=
  (cache.length,
   (cache.filter (fun p => now - p.2.timestamp < p.2.ttl)).length)

/-! ### `core/web_server.rs`: rate limiter -/

/-- Rust `RateLimiter` from `web_server.rs`: recorded admission `Instant`s plus the
configuration. -/
structure RateLimiter where
  requests : List Nat
  max_requests : Nat
  time_window : Nat
deriving DecidableEq

/-- Rust `RateLimiter::new(max_requests, time_window)`. -/
def RateLimiter.new (max_requests time_window : Nat) : RateLimiter :=
  { requests := [], max_requests := max_requests, time_window := time_window }

/-- Rust `RateLimiter::allow_request`: `retain`s the timestamps with
`now.duration_since(time) < time_window`, then admits (pushing `now`) iff the
retained count is strictly below `max_requests`. -/
def allow_request (rl : RateLimiter) (now : Nat) : Bool × RateLimiter :=
  let retained := rl.requests.filter (fun t => now - t < rl.time_window)
  if retained.length < rl.max_requests then
    (true, { rl with requests := retained ++ [now] })
  else
    (false, { rl with requests := retained })

/-- Run `n` back-to-back `allow_request` calls at the same instant, collecting the
admission decisions. -/
def allowN (rl : RateLimiter) (now : Nat) : Nat → List Bool × RateLimiter
  | 0 => ([], rl)
  | n + 1 =>
    let step := allow_request rl now
    let rest := allowN step.2 now n
    (step.1 :: rest.1, rest.2)

/-! ### `async_db.rs`: `AsyncDatabase` connection pool -/

/-- Rust `Connection` from `async_db.rs`. Note the inverted flag: freshly created
connections carry `is_active: false` (checked out), and
`release_connection` sets `is_active = true` (available for reuse). -/
structure Connection where
  id : String
  created_at : Nat
  is_active : Bool
deriving DecidableEq

/-- The scan `for conn in pool.iter_mut() { if conn.is_active { ... } }` in
`AsyncDatabase::get_connection`: find the first available connection, mark it
in use, and return its id with the updated pool. -/
def findAvailable : List Connection → Option (String × List Connection)
  | [] => none
  | c :: cs =>
    if c.is_active then some (c.id, { c with is_active := false } :: cs)
    else
      match findAvailable cs with
      | some r => some (r.1, c :: r.2)
      | none => none

/-- Rust `AsyncDatabase::get_connection`: reuse the first available connection, or
mint `format!("conn_{}", pool.len() + 1)` and push a new in-use connection. -/
def db_get_connection (pool : List Connection) (now : Nat) :
    String × List Connection :=
  match findAvailable pool with
  | some r => r
  | none =>
    let conn_id := "conn_" ++ Nat.repr (pool.length + 1)
    (conn_id,
     pool ++ [{ id := conn_id, created_at := now, is_active := false }])

/-- Rust `AsyncDatabase::release_connection`: mark the first connection with a
matching id as available again. -/
def db_release_connection : List Connection → String → List Connection
  | [], _ => []
  | c :: cs, conn_id =>
    if c.id = conn_id then { c with is_active := true } :: cs
    else c :: db_release_connection cs conn_id

/-- The end-to-end scenario "acquire 3 connections from a fresh
`AsyncDatabase`": the returned ids and the resulting pool. -/
def acquire3 (n1 n2 n3 : Nat) : List String × List Connection :=
  let r1 := db_get_connection [] n1
  let r2 := db_get_connection r1.2 n2
  let r3 := db_get_connection r2.2 n3
  ([r1.1, r2.1, r3.1], r3.2)

/-! ### `async_db.rs`: `ConnectionPool` -/

/-- The error taxonomy of the spec for pool acquisition; the source's
`ConnectionPool::get_connection` returns `Result<PooledConnection>` but only
ever constructs the `Ok` variant. -/
inductive DbError where
  | resourceExhausted
deriving DecidableEq

/-- Rust `ConnectionPool` state: the underlying `AsyncDatabase` pool, the idle
`connections: Vec<DatabaseConnection>` (modelled by the connection ids), and
`max_connections`. -/
structure PoolState where
  db_pool : List Connection
  idle : List String
  max_connections : Nat
deriving DecidableEq

/-- Rust `ConnectionPool::new(database, max_connections)` over a fresh database. -/
def PoolState.new (max_connections : Nat) : PoolState :=
  { db_pool := [], idle := [], max_connections := max_connections }

/-- Rust `ConnectionPool::get_connection`: `connections.pop()` (the LAST idle
entry) if any, otherwise `database.get_connection()` — which always succeeds,
minting a new connection when none is available; `max_connections` is never
consulted here. -/
def pool_get_connection (st : PoolState) (now : Nat) :
    Except DbError String × PoolState :=
  match st.idle.getLast? with
  | some conn => (Except.ok conn, { st with idle := st.idle.dropLast })
  | none =>
    let r := db_get_connection st.db_pool now
    (Except.ok r.1, { st with db_pool := r.2 })

/-- Rust `ConnectionPool::return_connection`: push the connection onto the idle
list only when `connections.len() < max_connections`; otherwise the
connection is silently dropped. -/
def pool_return_connection (st : PoolState) (conn : String) : PoolState :=
  if st.idle.length < st.max_connections then
    { st with idle := st.idle ++ [conn] }
  else st

/-- A pool operation: an acquire (`get_connection`) or a return of a
connection (`PooledConnection::drop` → `return_connection`). -/
inductive PoolOp where
  | acquire (now : Nat)
  | ret (conn : String)

/-- One pool operation applied to the pool state. -/
def pool_step (st : PoolState) : PoolOp → PoolState
  | PoolOp.acquire now => (pool_get_connection st now).2
  | PoolOp.ret conn => pool_return_connection st conn

/-- A sequence of pool operations applied in order. -/
def pool_run (st : PoolState) : List PoolOp → PoolState
  | [] => st
  | op :: ops => pool_run (pool_step st op) ops

/-- Run `n` successive acquires against the pool, collecting the results. -/
def pool_acquireN (st : PoolState) (now : Nat) :
    Nat → List (Except DbError String) × PoolState
  | 0 => ([], st)
  | n + 1 =>
    let step := pool_get_connection st now
    let rest := pool_acquireN step.2 now n
    (step.1 :: rest.1, rest.2)

/-! ### Decimal representation helpers (for task/connection id strings) -/

/-- Numeric value of a decimal digit character (left inverse of
`Nat.digitChar` on digits below 10). -/
def charVal (c : Char) : Nat := c.toNat - 48

/-- Value of a most-significant-first decimal digit string. -/
def digitsVal (l : List Char) : Nat :=
  l.foldl (fun a c => a * 10 + charVal c) 0

/-! ## Theorems -/

/-- Helper: a successful `enqueue` appends the task at the end of the buffer
and keeps the capacity unchanged. -/
theorem enqueue_ok {q q2 : TaskQueue} {t : TaskInfo}
    (h : q.enqueue t = Except.ok q2) :
    q2.queue = q.queue ++ [t] ∧ q2.max_size = q.max_size := by
  unfold TaskQueue.enqueue at h
  split at h
  · split at h
    · simp at h
    · injection h with h2
      subst h2
      exact ⟨rfl, rfl⟩
  · injection h with h2
    subst h2
    exact ⟨rfl, rfl⟩

/-- Claim C1 (evaluation of the code at the failing input): on a queue that
received tasks of priorities `[Low, Critical, Normal, Critical]` in that
order, `dequeue_by_priority` returns the `Low` task first — not a `Critical`
one — because the method sorts the buffer into descending priority order and
then `Vec::pop`s the LAST element, i.e. the lowest-priority task.  Draining
the queue returns `Low`, `Normal`, the second `Critical`, then the first
`Critical`: the exact reverse of the claimed order. -/
theorem C1_dequeue_by_priority_returns_lowest :
    (let tL : TaskInfo := ⟨"t1", "low", .Low, .Pending, 0, none, none⟩
     let tC1 : TaskInfo := ⟨"t2", "crit1", .Critical, .Pending, 0, none, none⟩
     let tN : TaskInfo := ⟨"t3", "norm", .Normal, .Pending, 0, none, none⟩
     let tC2 : TaskInfo := ⟨"t4", "crit2", .Critical, .Pending, 0, none, none⟩
     let q0 : TaskQueue := ⟨[tL, tC1, tN, tC2], none⟩
     let d1 := q0.dequeue_by_priority
     let d2 := d1.2.dequeue_by_priority
     let d3 := d2.2.dequeue_by_priority
     let d4 := d3.2.dequeue_by_priority
     d1.1 = some tL ∧ d2.1 = some tN ∧ d3.1 = some tC2 ∧ d4.1 = some tC1) := by
  decide

/-- Claim C3 (counterexample): after enqueuing `t1` and then `t2` into a
fresh queue, the first `dequeue` returns `t2`, not the earliest-enqueued
`t1` — `dequeue` is `Vec::pop`, i.e. LIFO, not FIFO. -/
theorem C3_counterexample :
    (let t1 : TaskInfo := ⟨"t1", "a", .Normal, .Pending, 0, none, none⟩
     let t2 : TaskInfo := ⟨"t2", "b", .Normal, .Pending, 0, none, none⟩
     TaskQueue.new.enqueue t1 = Except.ok ⟨[t1], none⟩ ∧
     TaskQueue.enqueue ⟨[t1], none⟩ t2 = Except.ok ⟨[t1, t2], none⟩ ∧
     (TaskQueue.dequeue ⟨[t1, t2], none⟩).1 = some t2 ∧
     t2 ≠ t1) := by
  decide

/-- Claim C3 (amended): for every non-empty task queue, `dequeue` removes and
returns the MOST RECENTLY enqueued task (`Vec::pop`, LIFO order): after
enqueuing tasks `t1` then `t2`, the first `dequeue` returns `t2`. -/
theorem C3_dequeue_lifo (q q1 q2 : TaskQueue) (t1 t2 : TaskInfo)
    (_h1 : q.enqueue t1 = Except.ok q1) (h2 : q1.enqueue t2 = Except.ok q2) :
    (q2.dequeue).1 = some t2 := by
  have e2 := (enqueue_ok h2).1
  show q2.queue.getLast? = some t2
  rw [e2, List.getLast?_concat]

/-- Witness for `C3_dequeue_lifo` at a concrete input. -/
theorem C3_dequeue_lifo_witness :
    (TaskQueue.dequeue ⟨[⟨"t1", "a", .Normal, .Pending, 0, none, none⟩,
                         ⟨"t2", "b", .Normal, .Pending, 0, none, none⟩], none⟩).1 =
      some ⟨"t2", "b", .Normal, .Pending, 0, none, none⟩ :=
  C3_dequeue_lifo TaskQueue.new
    ⟨[⟨"t1", "a", .Normal, .Pending, 0, none, none⟩], none⟩
    ⟨[⟨"t1", "a", .Normal, .Pending, 0, none, none⟩,
      ⟨"t2", "b", .Normal, .Pending, 0, none, none⟩], none⟩
    ⟨"t1", "a", .Normal, .Pending, 0, none, none⟩
    ⟨"t2", "b", .Normal, .Pending, 0, none, none⟩
    (by decide) (by decide)

/-- Claim C9: `get_from_cache` never changes the backing store — its state
component is exactly the input cache — and an entry that exists but is
expired (`ttl <= now - stored_at`) is reported as a miss while physically
remaining in the store. -/
theorem C9_get_frame (cache : Cache) (url : String) (now : Nat) :
    (get_from_cache cache url now).2 = cache ∧
    (∀ e : CacheEntry, cache.lookup url = some e → e.ttl ≤ now - e.timestamp →
      (get_from_cache cache url now).1 = none ∧
      (get_from_cache cache url now).2.lookup url = some e) := by
  have hstate : (get_from_cache cache url now).2 = cache := by
    unfold get_from_cache
    split
    · split <;> rfl
    · rfl
  refine ⟨hstate, ?_⟩
  intro e he hexp
  refine ⟨?_, by rw [hstate]; exact he⟩
  unfold get_from_cache
  rw [he]
  show (if now - e.timestamp < e.ttl then (some e.data, cache)
        else (none, cache)).1 = none
  rw [if_neg (by omega)]

/-- Witness for `C9_get_frame` at a concrete input: an expired entry is a
miss yet still present. -/
theorem C9_get_frame_witness :
    (get_from_cache [("k", ⟨"v", 0, 3⟩)] "k" 10).1 = none ∧
    (get_from_cache [("k", ⟨"v", 0, 3⟩)] "k" 10).2.lookup "k" = some ⟨"v", 0, 3⟩ :=
  (C9_get_frame [("k", ⟨"v", 0, 3⟩)] "k" 10).2 ⟨"v", 0, 3⟩ (by decide) (by decide)

/-- Claim C5: an entry stored with ttl `T` at time `t0` is a cache hit at
every `t` with `t0 <= t < t0 + T` and a miss at every `t >= t0 + T`
(validity is the strict inequality `now - stored_at < ttl`, so age exactly
`T` already misses). -/
theorem C5_ttl_window (cache : Cache) (url v : String) (T t0 t : Nat)
    (h0 : t0 ≤ t) :
    (t < t0 + T → (get_from_cache (store_in_cache cache url v T t0) url t).1 = some v) ∧
    (t0 + T ≤ t → (get_from_cache (store_in_cache cache url v T t0) url t).1 = none) := by
  have hl : (store_in_cache cache url v T t0).lookup url =
      some { data := v, timestamp := t0, ttl := T } := by
    simp [store_in_cache, List.lookup]
  constructor
  · intro ht
    unfold get_from_cache
    rw [hl]
    show (if t - t0 < T then (some v, store_in_cache cache url v T t0)
          else (none, store_in_cache cache url v T t0)).1 = some v
    rw [if_pos (by omega : t - t0 < T)]
  · intro ht
    unfold get_from_cache
    rw [hl]
    show (if t - t0 < T then (some v, store_in_cache cache url v T t0)
          else (none, store_in_cache cache url v T t0)).1 = none
    rw [if_neg (by omega : ¬ t - t0 < T)]

/-- Witness for `C5_ttl_window` at a concrete input. -/
theorem C5_ttl_window_witness :
    (get_from_cache (store_in_cache [] "k" "v" 10 5) "k" 7).1 = some "v" ∧
    (get_from_cache (store_in_cache [] "k" "v" 10 5) "k" 15).1 = none :=
  ⟨(C5_ttl_window [] "k" "v" 10 5 7 (by decide)).1 (by decide),
   (C5_ttl_window [] "k" "v" 10 5 15 (by decide)).2 (by decide)⟩

/-- Claim C4: the eviction sweep keeps exactly the entries that are valid at
`now` (membership characterisation), the companion `cache_stats` — evaluated
on the pre-sweep store — reports exactly the pair (total entries before the
sweep, valid entries remaining after the sweep), and storing only entries
with `ttl = 0` and letting positive time pass makes the sweep remove
everything, leaving 0 valid entries. -/
theorem C4_evict_expired (cache : Cache) (now : Nat) :
    (∀ p : String × CacheEntry,
      p ∈ cleanup_cache cache now ↔ p ∈ cache ∧ now - p.2.timestamp < p.2.ttl) ∧
    cache_stats cache now = (cache.length, (cleanup_cache cache now).length) ∧
    ((∀ p ∈ cache, p.2.ttl = 0 ∧ p.2.timestamp < now) →
      cleanup_cache cache now = [] ∧ (cache_stats cache now).2 = 0) := by
  refine ⟨?_, rfl, ?_⟩
  · intro p
    simp [cleanup_cache, List.mem_filter]
  · intro hall
    have h1 : cleanup_cache cache now = [] := by
      unfold cleanup_cache
      rw [List.filter_eq_nil_iff]
      intro p hp
      obtain ⟨ha, hb⟩ := hall p hp
      simp only [decide_eq_true_eq]
      omega
    refine ⟨h1, ?_⟩
    show (cache.filter (fun p => now - p.2.timestamp < p.2.ttl)).length = 0
    have h2 : cache.filter (fun p => now - p.2.timestamp < p.2.ttl) =
        cleanup_cache cache now := rfl
    rw [h2, h1]
    rfl

/-- Witness for `C4_evict_expired` at a concrete input: one entry with
`ttl = 0`, swept one time unit later. -/
theorem C4_evict_expired_witness :
    cleanup_cache [("k", ⟨"v", 0, 0⟩)] 1 = [] ∧
    (cache_stats [("k", ⟨"v", 0, 0⟩)] 1).2 = 0 :=
  (C4_evict_expired [("k", ⟨"v", 0, 0⟩)] 1).2.2 (by decide)

/-- Helper: one `allow_request` call at time `now` on a limiter whose window
holds `k` copies of `now` admits iff `k < R` (for a positive window nothing
is pruned, since every recorded age is `0 < W`). -/
theorem allow_request_replicate (R W now k : Nat) (hW : 0 < W) :
    allow_request ⟨List.replicate k now, R, W⟩ now =
      if k < R then (true, ⟨List.replicate (k + 1) now, R, W⟩)
      else (false, ⟨List.replicate k now, R, W⟩) := by
  have hf : (List.replicate k now).filter (fun t => now - t < W) =
      List.replicate k now := by
    apply List.filter_eq_self.mpr
    intro a ha
    have ha2 : a = now := List.eq_of_mem_replicate ha
    subst ha2
    simp only [decide_eq_true_eq]
    omega
  simp only [allow_request, hf, List.length_replicate]
  by_cases hk : k < R
  · rw [if_pos hk, if_pos hk, ← List.replicate_succ']
  · rw [if_neg hk, if_neg hk]

/-- Helper: a run of `j` back-to-back calls starting from `k` admitted
timestamps admits every time while `k + j` stays within the bound `R`. -/
theorem allowN_replicate (R W now : Nat) (hW : 0 < W) :
    ∀ (j k : Nat), k + j ≤ R →
      allowN ⟨List.replicate k now, R, W⟩ now j =
        (List.replicate j true, ⟨List.replicate (k + j) now, R, W⟩) := by
  intro j
  induction j with
  | zero => intro k hk; simp [allowN]
  | succ n ih =>
    intro k hk
    have hs := allow_request_replicate R W now k hW
    rw [if_pos (by omega)] at hs
    simp only [allowN]
    rw [hs]
    simp only []
    rw [ih (k + 1) (by omega)]
    have hkn : k + 1 + n = k + (n + 1) := by omega
    rw [hkn, List.replicate_succ]

/-- Helper: a run of `a + b` calls is the run of `a` calls followed by a run
of `b` calls from the resulting state. -/
theorem allowN_add (now : Nat) : ∀ (a b : Nat) (rl : RateLimiter),
    allowN rl now (a + b) =
      ((allowN rl now a).1 ++ (allowN (allowN rl now a).2 now b).1,
       (allowN (allowN rl now a).2 now b).2) := by
  intro a
  induction a with
  | zero => intro b rl; simp [allowN]
  | succ n ih =>
    intro b rl
    have h : n + 1 + b = (n + b) + 1 := by omega
    rw [h]
    simp only [allowN]
    rw [ih]
    simp [allowN]

/-- Claim C6: `allow_request` retains exactly the recorded timestamps whose
age is strictly below the window (so a timestamp aged exactly
`window_duration` is pruned), admits (recording `now` at the end) iff the
retained count is strictly below `max_requests`, and rejects without
recording otherwise; consequently, on a fresh limiter with
`max_requests = R` and a positive window, `R + 1` instantaneous checks
produce `R` admissions followed by one rejection. -/
theorem C6_rate_limiter (rl : RateLimiter) (now : Nat) :
    (∀ t, t ∈ rl.requests.filter (fun s => now - s < rl.time_window) ↔
        t ∈ rl.requests ∧ now - t < rl.time_window) ∧
    (∀ t ∈ rl.requests, rl.time_window ≤ now - t →
        t ∉ rl.requests.filter (fun s => now - s < rl.time_window)) ∧
    ((allow_request rl now).1 = true ↔
        (rl.requests.filter (fun s => now - s < rl.time_window)).length <
          rl.max_requests) ∧
    ((allow_request rl now).1 = true →
        (allow_request rl now).2.requests =
          rl.requests.filter (fun s => now - s < rl.time_window) ++ [now]) ∧
    ((allow_request rl now).1 = false →
        (allow_request rl now).2.requests =
          rl.requests.filter (fun s => now - s < rl.time_window)) ∧
    (∀ R W, 0 < W →
        (allowN (RateLimiter.new R W) now (R + 1)).1 =
          List.replicate R true ++ [false]) := by
  refine ⟨?_, ?_, ?_, ?_, ?_, ?_⟩
  · intro t
    simp [List.mem_filter]
  · intro t ht hage
    simp only [List.mem_filter, decide_eq_true_eq]
    intro hmem
    omega
  · simp only [allow_request]
    by_cases hc : (rl.requests.filter (fun s => now - s < rl.time_window)).length <
        rl.max_requests
    · rw [if_pos hc]
      simp [hc]
    · rw [if_neg hc]
      simp [hc]
  · simp only [allow_request]
    by_cases hc : (rl.requests.filter (fun s => now - s < rl.time_window)).length <
        rl.max_requests
    · rw [if_pos hc]
      intro
      rfl
    · rw [if_neg hc]
      simp
  · simp only [allow_request]
    by_cases hc : (rl.requests.filter (fun s => now - s < rl.time_window)).length <
        rl.max_requests
    · rw [if_pos hc]
      simp
    · rw [if_neg hc]
      intro
      rfl
  · intro R W hW
    have hnew : RateLimiter.new R W = ⟨List.replicate 0 now, R, W⟩ := rfl
    rw [hnew, allowN_add now R 1, allowN_replicate R W now hW R 0 (by omega)]
    have h2 := allow_request_replicate R W now R hW
    rw [if_neg (by omega)] at h2
    simp only [Nat.zero_add]
    simp [allowN, h2]

/-- Witness for `C6_rate_limiter`: a fresh limiter with `max_requests = 2`
and window `5` admits twice and then rejects. -/
theorem C6_rate_limiter_witness :
    (allowN (RateLimiter.new 2 5) 0 3).1 = List.replicate 2 true ++ [false] :=
  (C6_rate_limiter (RateLimiter.new 2 5) 0).2.2.2.2.2 2 5 (by decide)

/-- Claim C7: acquiring three connections from a fresh `AsyncDatabase` and
then releasing any one of them makes the next `get_connection` return the
released connection's id (the scan finds the released connection marked
available) instead of minting a new id. -/
theorem C7_connection_reuse (n1 n2 n3 n4 : Nat) (r : String)
    (hr : r ∈ (acquire3 n1 n2 n3).1) :
    (db_get_connection (db_release_connection (acquire3 n1 n2 n3).2 r) n4).1 = r := by
  have hids : (acquire3 n1 n2 n3).1 = ["conn_1", "conn_2", "conn_3"] := by
    with_unfolding_all rfl
  rw [hids] at hr
  have hpool : (acquire3 n1 n2 n3).2 =
      [⟨"conn_1", n1, false⟩, ⟨"conn_2", n2, false⟩, ⟨"conn_3", n3, false⟩] := by
    with_unfolding_all rfl
  rw [hpool]
  simp only [List.mem_cons, List.not_mem_nil, or_false] at hr
  rcases hr with rfl | rfl | rfl
  · with_unfolding_all rfl
  · with_unfolding_all rfl
  · with_unfolding_all rfl

/-- Witness for `C7_connection_reuse`: releasing the second connection makes
the fourth acquire return `conn_2`. -/
theorem C7_connection_reuse_witness :
    (db_get_connection (db_release_connection (acquire3 0 0 0).2 "conn_2") 0).1 =
      "conn_2" :=
  C7_connection_reuse 0 0 0 0 "conn_2" (by decide)

/-- Helper: the availability scan finds nothing in a pool whose connections
are all checked out. -/
theorem findAvailable_none (pool : List Connection)
    (h : ∀ c ∈ pool, c.is_active = false) : findAvailable pool = none := by
  induction pool with
  | nil => rfl
  | cons c cs ih =>
    have hc : c.is_active = false := h c (List.mem_cons_self c cs)
    have hcs : findAvailable cs = none :=
      ih (fun d hd => h d (List.mem_cons_of_mem c hd))
    simp [findAvailable, hc, hcs]

/-- Claim C2 (counterexample): with `max_connections = 1`, the second
acquire from a fresh bounded pool — issued while one connection is checked
out and no idle connection exists — does NOT return `ResourceExhausted`: it
mints a brand-new connection `conn_2`, leaving 2 connections simultaneously
in use, more than the bound `K = 1`. -/
theorem C2_counterexample :
    (pool_get_connection (PoolState.new 1) 0).1 = Except.ok "conn_1" ∧
    (pool_get_connection (pool_get_connection (PoolState.new 1) 0).2 0).1 =
      Except.ok "conn_2" ∧
    ((pool_get_connection (pool_get_connection (PoolState.new 1) 0).2 0).2.db_pool.filter
        (fun c => !c.is_active)).length = 2 := by
  decide

/-- Helper: acquires from a pool state with no idle connections and a fully
checked-out database pool only ever mint fresh in-use connections: the idle
list stays empty, the database pool grows by one per acquire, and every
connection in it stays checked out. -/
theorem pool_acquireN_fresh (now : Nat) :
    ∀ (n : Nat) (st : PoolState), st.idle = [] →
      (∀ c ∈ st.db_pool, c.is_active = false) →
      (pool_acquireN st now n).2.idle = [] ∧
      (pool_acquireN st now n).2.db_pool.length = st.db_pool.length + n ∧
      (∀ c ∈ (pool_acquireN st now n).2.db_pool, c.is_active = false) := by
  intro n
  induction n with
  | zero => intro st h1 h2; exact ⟨h1, rfl, h2⟩
  | succ m ih =>
    intro st h1 h2
    have hstep : (pool_get_connection st now).2 =
        { st with db_pool := st.db_pool ++
            [{ id := "conn_" ++ Nat.repr (st.db_pool.length + 1),
               created_at := now, is_active := false }] } := by
      unfold pool_get_connection
      rw [h1]
      simp [db_get_connection, findAvailable_none st.db_pool h2]
    have hmem : ∀ c ∈ (pool_get_connection st now).2.db_pool,
        c.is_active = false := by
      rw [hstep]
      intro c hc
      rcases List.mem_append.mp hc with hin | hin
      · exact h2 c hin
      · rcases List.mem_singleton.mp hin with rfl
        rfl
    have hidle : (pool_get_connection st now).2.idle = [] := by
      rw [hstep]
      exact h1
    obtain ⟨ha, hb, hc⟩ := ih (pool_get_connection st now).2 hidle hmem
    refine ⟨?_, ?_, ?_⟩
    · exact ha
    · show (pool_acquireN (pool_get_connection st now).2 now m).2.db_pool.length =
        st.db_pool.length + (m + 1)
      rw [hb, hstep]
      simp
      omega
    · exact hc

/-- Claim C2 (amended): the bounded pool's `get_connection` never returns
`ResourceExhausted` — when no idle connection is available it always asks the
underlying database for a connection, which mints a new one without
consulting `max_connections`; consequently `n` acquires against a fresh pool
with bound `K` leave `n` connections simultaneously in use, even for
`n > K`.  `max_connections` only caps the idle list inside
`return_connection`. -/
theorem C2_pool_unbounded (st : PoolState) (now K n : Nat) :
    (pool_get_connection st now).1 ≠ Except.error DbError.resourceExhausted ∧
    ((pool_acquireN (PoolState.new K) now n).2.db_pool.filter
        (fun c => !c.is_active)).length = n ∧
    (pool_acquireN (PoolState.new K) now n).2.idle = [] := by
  refine ⟨?_, ?_, ?_⟩
  · cases hl : st.idle.getLast? <;> simp [pool_get_connection, hl]
  · obtain ⟨ha, hb, hc⟩ := pool_acquireN_fresh now n (PoolState.new K) rfl
      (by intro c hc; simp [PoolState.new] at hc)
    have hfilter : (pool_acquireN (PoolState.new K) now n).2.db_pool.filter
        (fun c => !c.is_active) =
        (pool_acquireN (PoolState.new K) now n).2.db_pool := by
      apply List.filter_eq_self.mpr
      intro c hmem
      rw [hc c hmem]
      rfl
    rw [hfilter, hb]
    simp [PoolState.new]
  · exact (pool_acquireN_fresh now n (PoolState.new K) rfl
      (by intro c hc; simp [PoolState.new] at hc)).1

/-- Helper: one pool operation keeps the idle list within the bound and
never changes the bound itself. -/
theorem pool_step_preserves (st : PoolState) (op : PoolOp)
    (h : st.idle.length ≤ st.max_connections) :
    (pool_step st op).idle.length ≤ (pool_step st op).max_connections ∧
    (pool_step st op).max_connections = st.max_connections := by
  cases op with
  | acquire now =>
    unfold pool_step pool_get_connection
    cases hl : st.idle.getLast? with
    | some c =>
      refine ⟨?_, rfl⟩
      show st.idle.dropLast.length ≤ st.max_connections
      rw [List.length_dropLast]
      omega
    | none => exact ⟨h, rfl⟩
  | ret conn =>
    show (pool_return_connection st conn).idle.length ≤
        (pool_return_connection st conn).max_connections ∧
      (pool_return_connection st conn).max_connections = st.max_connections
    unfold pool_return_connection
    by_cases hc : st.idle.length < st.max_connections
    · rw [if_pos hc]
      refine ⟨?_, rfl⟩
      show (st.idle ++ [conn]).length ≤ st.max_connections
      rw [List.length_append]
      simp
      omega
    · rw [if_neg hc]
      exact ⟨h, rfl⟩

/-- Helper: the idle-list bound is an inductive invariant of arbitrary
operation sequences. -/
theorem pool_run_inv :
    ∀ (ops : List PoolOp) (st : PoolState),
      st.idle.length ≤ st.max_connections →
      (pool_run st ops).idle.length ≤ (pool_run st ops).max_connections ∧
      (pool_run st ops).max_connections = st.max_connections := by
  intro ops
  induction ops with
  | nil => intro st h; exact ⟨h, rfl⟩
  | cons op rest ih =>
    intro st h
    obtain ⟨h1, h2⟩ := pool_step_preserves st op h
    obtain ⟨h3, h4⟩ := ih (pool_step st op) h1
    refine ⟨h3, ?_⟩
    show (pool_run (pool_step st op) rest).max_connections = st.max_connections
    rw [h4, h2]

/-- Claim C10: `return_connection` appends the returned connection to the
idle list only when its length is strictly below `max_connections` and
otherwise leaves the state unchanged (discarding the connection);
`get_connection` only ever removes from the idle list; hence, starting from
the empty pool with bound `K`, every sequence of pool operations keeps the
idle list's length at most `K`. -/
theorem C10_idle_bounded (st : PoolState) (conn : String) (now K : Nat)
    (ops : List PoolOp) :
    (st.idle.length < st.max_connections →
      pool_return_connection st conn = { st with idle := st.idle ++ [conn] }) ∧
    (st.max_connections ≤ st.idle.length →
      pool_return_connection st conn = st) ∧
    ((pool_get_connection st now).2.idle = st.idle.dropLast ∨
      (pool_get_connection st now).2.idle = st.idle) ∧
    (pool_run (PoolState.new K) ops).idle.length ≤ K := by
  refine ⟨?_, ?_, ?_, ?_⟩
  · intro h
    unfold pool_return_connection
    rw [if_pos h]
  · intro h
    unfold pool_return_connection
    rw [if_neg (by omega)]
  · unfold pool_get_connection
    cases hl : st.idle.getLast? with
    | some c => left; rfl
    | none => right; rfl
  · have hinv := pool_run_inv ops (PoolState.new K) (by simp [PoolState.new])
    have h2 := hinv.2
    have h1 := hinv.1
    rw [h2] at h1
    exact h1

/-- Witness for `C10_idle_bounded`: a return below the bound appends; a
return at the bound discards. -/
theorem C10_idle_bounded_witness :
    pool_return_connection ⟨[], [], 1⟩ "c" = ⟨[], ["c"], 1⟩ ∧
    pool_return_connection ⟨[], ["a"], 1⟩ "b" = ⟨[], ["a"], 1⟩ :=
  ⟨(C10_idle_bounded ⟨[], [], 1⟩ "c" 0 1 []).1 (by decide),
   (C10_idle_bounded ⟨[], ["a"], 1⟩ "b" 0 1 []).2.1 (by decide)⟩

/-- Helper: the accumulator of `Nat.toDigitsCore` is simply appended to the
digits produced from the empty accumulator. -/
theorem toDigitsCore_eq_append (b : Nat) :
    ∀ (fuel n : Nat) (acc : List Char),
      Nat.toDigitsCore b fuel n acc = Nat.toDigitsCore b fuel n [] ++ acc := by
  intro fuel
  induction fuel with
  | zero => intro n acc; simp [Nat.toDigitsCore]
  | succ f ih =>
    intro n acc
    simp only [Nat.toDigitsCore]
    by_cases h : n / b = 0
    · rw [if_pos h, if_pos h]
      rfl
    · rw [if_neg h, if_neg h]
      rw [ih (n / b) [Nat.digitChar (n % b)],
        ih (n / b) (Nat.digitChar (n % b) :: acc)]
      simp

/-- Helper: `charVal` inverts `Nat.digitChar` on decimal digits. -/
theorem charVal_digitChar : ∀ d : Nat, d < 10 → charVal (Nat.digitChar d) = d := by
  decide

/-- Helper: appending one digit multiplies the value by ten and adds the
digit. -/
theorem digitsVal_append (l : List Char) (c : Char) :
    digitsVal (l ++ [c]) = digitsVal l * 10 + charVal c := by
  simp [digitsVal, List.foldl_append]

/-- Helper: `digitsVal` recovers the number from its decimal digits. -/
theorem digitsVal_toDigitsCore :
    ∀ (fuel n : Nat), n < fuel →
      digitsVal (Nat.toDigitsCore 10 fuel n []) = n := by
  intro fuel
  induction fuel with
  | zero => intro n h; omega
  | succ f ih =>
    intro n h
    simp only [Nat.toDigitsCore]
    by_cases h0 : n / 10 = 0
    · rw [if_pos h0]
      have h10 : n % 10 < 10 := Nat.mod_lt n (by norm_num)
      show digitsVal [Nat.digitChar (n % 10)] = n
      have hv : digitsVal [Nat.digitChar (n % 10)] = charVal (Nat.digitChar (n % 10)) := by
        simp [digitsVal]
      rw [hv, charVal_digitChar (n % 10) h10]
      omega
    · rw [if_neg h0]
      rw [toDigitsCore_eq_append 10 f (n / 10) [Nat.digitChar (n % 10)]]
      rw [digitsVal_append]
      have hn0 : 0 < n := by
        rcases Nat.eq_zero_or_pos n with rfl | hp
        · simp at h0
        · exact hp
      have hlt : n / 10 < f := by
        have hd := Nat.div_lt_self hn0 (by norm_num : 1 < 10)
        omega
      rw [ih (n / 10) hlt, charVal_digitChar (n % 10) (Nat.mod_lt n (by norm_num))]
      omega

/-- Helper: the decimal representation `Nat.repr` is injective. -/
theorem natRepr_inj (m n : Nat) (h : Nat.repr m = Nat.repr n) : m = n := by
  have hd : Nat.toDigits 10 m = Nat.toDigits 10 n := congrArg String.data h
  have hm := digitsVal_toDigitsCore (m + 1) m (Nat.lt_succ_self m)
  have hn := digitsVal_toDigitsCore (n + 1) n (Nat.lt_succ_self n)
  unfold Nat.toDigits at hd
  rw [hd] at hm
  exact hm.symm.trans hn

/-- Helper: distinct counters give distinct `task_N` id strings. -/
theorem taskId_inj (m n : Nat)
    (h : "task_" ++ Nat.repr m = "task_" ++ Nat.repr n) : m = n := by
  apply natRepr_inj
  have hd := congrArg String.data h
  rw [String.data_append, String.data_append] at hd
  have hcancel := List.append_cancel_left hd
  exact congrArg String.mk hcancel

/-- Helper: the counter values recorded by successive registrations count up
from the scheduler's current counter. -/
theorem counterTrace_eq :
    ∀ (reqs : List (TaskRequest × Nat)) (s : AsyncTaskScheduler),
      s.counterTrace reqs =
        (List.range reqs.length).map (fun i => s.task_counter + i + 1) := by
  intro reqs
  induction reqs with
  | nil => intro s; rfl
  | cons p rest ih =>
    intro s
    obtain ⟨r, now⟩ := p
    show (s.task_counter + 1) ::
        AsyncTaskScheduler.counterTrace (s.register r now).2 rest =
      (List.range (rest.length + 1)).map (fun i => s.task_counter + i + 1)
    rw [ih (s.register r now).2]
    have hc : (s.register r now).2.task_counter = s.task_counter + 1 := rfl
    rw [hc, List.range_succ_eq_map, List.map_cons, List.map_map]
    have hfun : (fun i => s.task_counter + 1 + i + 1) =
        ((fun i => s.task_counter + i + 1) ∘ Nat.succ) := by
      funext i
      simp [Function.comp]
      omega
    rw [hfun]

/-- Helper: the ids returned by successive registrations are exactly the
`task_N` strings of the recorded counter values. -/
theorem registerAll_ids :
    ∀ (reqs : List (TaskRequest × Nat)) (s : AsyncTaskScheduler),
      (s.registerAll reqs).1 =
        (s.counterTrace reqs).map (fun c => "task_" ++ Nat.repr c) := by
  intro reqs
  induction reqs with
  | nil => intro s; rfl
  | cons p rest ih =>
    intro s
    obtain ⟨r, now⟩ := p
    show ("task_" ++ Nat.repr (s.task_counter + 1)) ::
        ((s.register r now).2.registerAll rest).1 =
      (AsyncTaskScheduler.counterTrace s ((r, now) :: rest)).map
        (fun c => "task_" ++ Nat.repr c)
    rw [ih (s.register r now).2]
    rfl

/-- Claim C8: for every sequence of task registrations (periodic or
one-shot) against one scheduler instance, the underlying counter values are
`1, 2, ...` in registration order — strictly increasing — and the returned
id strings `task_N` are pairwise distinct. -/
theorem C8_task_ids (reqs : List (TaskRequest × Nat)) :
    (AsyncTaskScheduler.new.registerAll reqs).1 =
      (AsyncTaskScheduler.new.counterTrace reqs).map
        (fun c => "task_" ++ Nat.repr c) ∧
    AsyncTaskScheduler.new.counterTrace reqs =
      (List.range reqs.length).map (fun i => i + 1) ∧
    (AsyncTaskScheduler.new.counterTrace reqs).Pairwise (· < ·) ∧
    (AsyncTaskScheduler.new.registerAll reqs).1.Nodup := by
  have h1 := registerAll_ids reqs AsyncTaskScheduler.new
  have h2 : AsyncTaskScheduler.new.counterTrace reqs =
      (List.range reqs.length).map (fun i => i + 1) := by
    have h0 := counterTrace_eq reqs AsyncTaskScheduler.new
    simpa [AsyncTaskScheduler.new] using h0
  refine ⟨h1, h2, ?_, ?_⟩
  · rw [h2]
    have hr : (List.range reqs.length).Pairwise (· < ·) :=
      List.pairwise_lt_range reqs.length
    exact hr.map (fun i => i + 1) (fun a b hab => by show a + 1 < b + 1; omega)
  · rw [h1, h2, List.map_map]
    have hinj : Function.Injective
        ((fun c => "task_" ++ Nat.repr c) ∘ fun i => i + 1) := by
      intro a b hab
      simp only [Function.comp] at hab
      have := taskId_inj (a + 1) (b + 1) hab
      omega
    exact List.Nodup.map hinj (List.nodup_range reqs.length)

end RustStudy
